import Mathlib

/-!
Verification of the advanced-vector container (`src/advanced-vector/vector.h`)
against its specification. The C++ classes `RawMemory<T>` and `Vector<T>` are
shallowly embedded: a buffer is a list of slots (`some a` = live element with
value `a`, `none` = raw or moved-from slot) together with an allocation
identity (`0` = null buffer). Destructor calls and deallocations performed by
an operation are recorded as an explicit event list where a claim needs them.
-/

namespace AdvVector

/-- Heap events observable during an operation. `destroyAt b i` is a call of
the element destructor on slot `i` of buffer `b`; `dealloc b` releases
buffer `b`. -/
inductive Event where
| destroyAt : Nat → Nat → Event
| dealloc : Nat → Event
deriving DecidableEq

/-- Model of `RawMemory<T>`: the allocation identity of `buffer_` (`0` means
the null buffer) and the slots of the buffer; `capacity_` is the slot
count. -/
structure RawMemory (α : Type) where
  id : Nat
  slots : List (Option α)
deriving DecidableEq

/-- Model of `capacity_` (the `Capacity()` accessor). -/
def RawMemory.capacity (m : RawMemory α) : Nat := m.slots.length

/-- Model of the default-constructed `RawMemory`: null buffer, zero
capacity. -/
def RawMemory.null (α : Type) : RawMemory α := ⟨0, []⟩

/-- Model of `RawMemory(RawMemory&& other)`: the fields are first
default-initialized to (null, 0) and then `Swap(other)` runs, so the new
object takes the buffer and capacity of `other` and `other` is left in the
default state. The result is (constructed object, source after the move). -/
def RawMemory.moveCtor (other : RawMemory α) : RawMemory α × RawMemory α :=
  (other, RawMemory.null α)

/-- Model of `RawMemory::operator=(RawMemory&& rhs)`: the body is `Swap(rhs)`,
which exchanges `buffer_` and `capacity_`; no buffer is deallocated and no
element is destroyed, so the event list is empty. The result is
(target after, source after, events). -/
def RawMemory.moveAssign (a rhs : RawMemory α) : RawMemory α × RawMemory α × List Event :=
  (rhs, a, [])

/-- Model of `Vector<T>::Destroy(T* buf)`: calls the destructor of the slot
the pointer refers to; the pointer is a buffer identity plus an offset. -/
def Destroy (b off : Nat) : List Event := [Event.destroyAt b off]

/-- Model of `Vector<T>::DestroyN(T* buf, size_t n)`: the loop body is
`Destroy(buf)` with `buf` never advanced, so every iteration destroys the
slot at offset `off` that `buf` points at. -/
def DestroyN (b off : Nat) : Nat → List Event
| 0 => []
| n + 1 => Destroy b off ++ DestroyN b off n

/-- Model of `Vector<T>`: the owned `RawMemory` (`data_`) and the live count
(`size_`). -/
structure Vector (α : Type) where
  data : RawMemory α
  size : Nat
deriving DecidableEq

/-- Model of `Vector::Capacity()`. -/
def Vector.capacity (v : Vector α) : Nat := v.data.capacity

/-- Model of `~Vector()`: runs `DestroyN(data_.GetAddress(), size_)`, after
which the destructor of `data_` deallocates the buffer. -/
def Vector.destructor (v : Vector α) : List Event :=
  DestroyN v.data.id 0 v.size ++ [Event.dealloc v.data.id]

/-- Model of `Vector(Vector&& other)`: member initialization
`data_(std::move(other.data_))` (a `RawMemory` move construction),
`size_(other.size_)`, then the body sets `other.size_ = 0`. The result is
(constructed vector, source after the move). -/
def Vector.moveCtor (other : Vector α) : Vector α × Vector α :=
  let p := RawMemory.moveCtor other.data
  (⟨p.1, other.size⟩, ⟨p.2, 0⟩)

/-- Model of `Vector::operator=(Vector&& rhs)` for `this != &rhs`. If
`rhs.size_ > data_.Capacity()`, a temporary is move-constructed from `rhs`,
swapped with `this`, and destroyed at end of scope (its destructor events are
recorded); otherwise `data_ = std::move(rhs.data_)` — a `RawMemory` swap —
and `size_ = rhs.size_`, with `rhs.size_` left unchanged. The result is
(target after, source after, events of the operation). -/
def Vector.moveAssignOp (a rhs : Vector α) : Vector α × Vector α × List Event :=
  if rhs.size > a.data.capacity then
    let p := Vector.moveCtor rhs
    (p.1, p.2, Vector.destructor a)
  else
    let q := RawMemory.moveAssign a.data rhs.data
    (⟨q.1, rhs.size⟩, ⟨q.2.1, rhs.size⟩, q.2.2)

/-- Reading of slot `i` of a buffer (out of range reads as raw). -/
def slotAt (l : List (Option α)) (i : Nat) : Option α := (l[i]?).getD none

/-- Model of the element-wise forward loops `std::copy`,
`std::uninitialized_copy_n` and `std::uninitialized_move_n`: write `n` slot
values from `src` starting at `srcOff` into `dst` starting at `dstOff`,
element `i` before element `i + 1`. -/
def copySlots (src : List (Option α)) (srcOff : Nat) (dst : List (Option α))
    (dstOff : Nat) : Nat → List (Option α)
| 0 => dst
| n + 1 => copySlots src (srcOff + 1) (dst.set dstOff (slotAt src srcOff)) (dstOff + 1) n

/-- Model of a single move of a value between slots (`*dst =
std::move(*src)`, or placement move-construction at `dst` from `*src`): the
destination takes the value and the source slot is left moved-from. -/
def moveSlot (l : List (Option α)) (src dst : Nat) : List (Option α) :=
  (l.set dst (slotAt l src)).set src none

/-- Model of `std::move_backward(first, first + n, first + n + 1)`: the range
`[first, first + n)` moves one slot towards the tail, last element first. -/
def moveBackwardN (l : List (Option α)) (first : Nat) : Nat → List (Option α)
| 0 => l
| n + 1 => moveBackwardN (moveSlot l (first + n) (first + n + 1)) first n

/-- Model of `std::destroy_n(data_ + off, n)`: slots `[off, off + n)` become
raw. -/
def destroySlots (l : List (Option α)) (off : Nat) : Nat → List (Option α)
| 0 => l
| n + 1 => destroySlots (l.set off none) (off + 1) n

/-- Argument pack of an `Emplace` call, as far as the embedding needs it: a
plain value, or a reference aliasing element `j` of the vector itself (as in
`v.EmplaceBack(v[0])`). -/
inductive Arg (α : Type) where
| lit : α → Arg α
| ref : Nat → Arg α

/-- Evaluation of an argument at the moment the element constructor runs: a
reference argument reads the slot it aliases in its state at that moment. -/
def evalArg (slots : List (Option α)) : Arg α → Option α
| Arg.lit a => some a
| Arg.ref j => slotAt slots j

/-- The growth policy `size_ == 0 ? 1 : size_ * 2` used by
`ReallocationEmplace` and by the growth branch of `PushBack(T&&)`. -/
def growthCapacity (size : Nat) : Nat := if size = 0 then 1 else size * 2

/-- Model of `Vector::ReallocationEmplace(pos, args...)` with
`k = pos - begin()`: allocate a buffer of `growthCapacity size_` slots
(identity `fresh`), construct the new element at slot `k` of the new buffer
from `args` — evaluated while the old buffer is still intact — then relocate
`[0, k)` to `[0, k)` and `[k, size)` to `[k + 1, size + 1)` with
`Uninitialized`, destroy the old elements, swap buffers, increment `size_`,
and return the offset of the constructed element. -/
def Vector.ReallocationEmplace (v : Vector α) (k : Nat) (arg : Arg α)
    (fresh : Nat) : Vector α × Nat :=
  let constructed := evalArg v.data.slots arg
  let s1 := (List.replicate (growthCapacity v.size) (none : Option α)).set k constructed
  let s2 := copySlots v.data.slots 0 s1 0 k
  let s3 := copySlots v.data.slots k s2 (k + 1) (v.size - k)
  (⟨⟨fresh, s3⟩, v.size + 1⟩, k)

/-- Model of `Vector::NoReallocationEmplace(pos, args...)` with
`k = pos - begin()`: when `pos == end()`, construct directly at slot `size_`;
otherwise materialize a temporary from `args` first, move-construct a new
element at slot `size_` from the last element, shift `[k, size - 1)` one slot
toward the tail by `std::move_backward`, and move-assign the temporary into
slot `k`. Returns the offset `k` of the inserted element. -/
def Vector.NoReallocationEmplace (v : Vector α) (k : Nat) (arg : Arg α) :
    Vector α × Nat :=
  if k = v.size then
    (⟨⟨v.data.id, v.data.slots.set v.size (evalArg v.data.slots arg)⟩, v.size + 1⟩, k)
  else
    let elem := evalArg v.data.slots arg
    let s1 := moveSlot v.data.slots (v.size - 1) v.size
    let s2 := moveBackwardN s1 k (v.size - 1 - k)
    (⟨⟨v.data.id, s2.set k elem⟩, v.size + 1⟩, k)

/-- Model of `Vector::Emplace(pos, args...)`: dispatch on
`size_ == data_.Capacity()`. -/
def Vector.Emplace (v : Vector α) (k : Nat) (arg : Arg α) (fresh : Nat) :
    Vector α × Nat :=
  if v.size = v.data.capacity then v.ReallocationEmplace k arg fresh
  else v.NoReallocationEmplace k arg

/-- Model of `Vector::PushBack(T&& value)`: at capacity, allocate
`growthCapacity size_` slots (identity `fresh`), move-construct the value at
slot `size_`, relocate `[0, size)` with `Uninitialized`, destroy the old
elements, swap, and increment `size_`; below capacity, construct in place at
slot `size_`. -/
def Vector.PushBackMove (v : Vector α) (x : α) (fresh : Nat) : Vector α :=
  if v.size = v.data.capacity then
    let s1 := (List.replicate (growthCapacity v.size) (none : Option α)).set v.size (some x)
    let s2 := copySlots v.data.slots 0 s1 0 v.size
    ⟨⟨fresh, s2⟩, v.size + 1⟩
  else
    ⟨⟨v.data.id, v.data.slots.set v.size (some x)⟩, v.size + 1⟩

/-- Model of `Vector(const Vector& other)`: `data_(other.size_)` allocates a
buffer of capacity `other.size_` (identity `fresh`, null when the size is
zero), then `std::uninitialized_copy_n(other.data_.GetAddress(),
other.size_, data_.GetAddress())` copy-constructs the elements. -/
def Vector.copyCtor (other : Vector α) (fresh : Nat) : Vector α :=
  if other.size = 0 then ⟨RawMemory.null α, 0⟩
  else
    ⟨⟨fresh, copySlots other.data.slots 0 (List.replicate other.size none) 0 other.size⟩,
      other.size⟩

/-- Model of `Vector::operator=(const Vector& rhs)` for `this != &rhs`: when
`rhs.size_ > data_.Capacity()`, copy a temporary and swap; otherwise
copy-assign over the prefix and then either destroy the surplus elements
(`rhs.size_ < size_`) or copy-construct the tail `rhs[size_, rhs.size_)`
with destination `data_.GetAddress()` — offset 0, exactly as the source
writes it — and finally set `size_ = rhs.size_`. -/
def Vector.copyAssign (a rhs : Vector α) (fresh : Nat) : Vector α :=
  if rhs.size > a.data.capacity then Vector.copyCtor rhs fresh
  else if rhs.size < a.size then
    ⟨⟨a.data.id,
      destroySlots (copySlots rhs.data.slots 0 a.data.slots 0 rhs.size)
        rhs.size (a.size - rhs.size)⟩, rhs.size⟩
  else
    ⟨⟨a.data.id,
      copySlots rhs.data.slots a.size
        (copySlots rhs.data.slots 0 a.data.slots 0 a.size) 0 (rhs.size - a.size)⟩,
      rhs.size⟩

/-- A single element construction performed during relocation, recording the
relocated index. -/
inductive RelocOp where
| moveConstruct : Nat → RelocOp
| copyConstruct : Nat → RelocOp
deriving DecidableEq

/-- The compile-time branch of `Vector<T>::Uninitialized`: move when
`std::is_nothrow_move_constructible_v<T> ||
!std::is_copy_constructible_v<T>`, otherwise copy. -/
def relocByMove (nothrowMove copyConstructible : Bool) : Bool :=
  nothrowMove || !copyConstructible

/-- Per-element constructions performed by `Uninitialized(data, size,
new_data)` on `n` elements: `std::uninitialized_move_n` move-constructs each
element, `std::uninitialized_copy_n` copy-constructs each element. -/
def Uninitialized_ops (nothrowMove copyConstructible : Bool) (n : Nat) : List RelocOp :=
  if relocByMove nothrowMove copyConstructible then
    (List.range n).map RelocOp.moveConstruct
  else
    (List.range n).map RelocOp.copyConstruct

/-- Count of copy constructions in a relocation trace. -/
def countCopies (ops : List RelocOp) : Nat :=
  ops.countP fun o =>
    match o with
    | RelocOp.copyConstruct _ => true
    | RelocOp.moveConstruct _ => false

/-- Model of `RawMemory(size_t capacity)`: `Allocate` returns the null buffer
without allocating when the capacity is zero, and otherwise obtains a fresh
buffer of `n` raw slots (identity `fresh`) — or fails with AllocationFailure
when the allocator refuses (`allocOk = false`). -/
def allocRaw (α : Type) (n : Nat) (allocOk : Bool) (fresh : Nat) :
    Except Unit (RawMemory α) :=
  if n = 0 then Except.ok (RawMemory.null α)
  else if allocOk then Except.ok ⟨fresh, List.replicate n none⟩
  else Except.error ()

/-- Model of `std::uninitialized_copy_n` with an instrumented element type
whose copy constructor can throw: `budget = some b` means the b-th copy
construction from now throws; on a throw the already constructed destination
prefix is destroyed again and the exception propagates, leaving the
destination raw. Returns the written destination and the remaining budget. -/
def copySlotsE (src : List (Option α)) (srcOff : Nat) (dst : List (Option α))
    (dstOff : Nat) (budget : Option Nat) : Nat → Except Unit (List (Option α) × Option Nat)
| 0 => Except.ok (dst, budget)
| n + 1 =>
  match budget with
  | some 0 => Except.error ()
  | some (b + 1) =>
    copySlotsE src (srcOff + 1) (dst.set dstOff (slotAt src srcOff)) (dstOff + 1) (some b) n
  | none =>
    copySlotsE src (srcOff + 1) (dst.set dstOff (slotAt src srcOff)) (dstOff + 1) none n

/-- Model of `Uninitialized(data, size, new_data)` with the instrumented
element type: by the compile-time policy `relocByMove` it either
move-constructs every element (`std::uninitialized_move_n`, no copies, does
not throw) or copy-constructs every element (`std::uninitialized_copy_n`,
drawing down `budget`). -/
def UninitializedE (nothrowMove copyConstructible : Bool) (src : List (Option α))
    (srcOff : Nat) (dst : List (Option α)) (dstOff : Nat) (budget : Option Nat)
    (n : Nat) : Except Unit (List (Option α) × Option Nat) :=
  if relocByMove nothrowMove copyConstructible then
    Except.ok (copySlots src srcOff dst dstOff n, budget)
  else copySlotsE src srcOff dst dstOff budget n

/-- Model of `Reserve(new_capacity)` with failure injection: `allocOk` is
whether the raw allocation succeeds, `nothrowMove` / `copyConstructible` are
the element-type traits driving `Uninitialized`, `budget` drives throwing
copies, `fresh` is the identity of a successful new allocation. The result
pairs the observable vector with `some ()` when an exception escaped. As in
the source, the member fields are written only by `DestroyAndSwap`, after
every step that can throw. -/
def Vector.ReserveRun (v : Vector α) (newCap : Nat)
    (allocOk nothrowMove copyConstructible : Bool) (budget : Option Nat)
    (fresh : Nat) : Vector α × Option Unit :=
  if newCap < v.data.capacity then (v, none)
  else
    match allocRaw α newCap allocOk fresh with
    | Except.error _ => (v, some ())
    | Except.ok newData =>
      match UninitializedE nothrowMove copyConstructible v.data.slots 0
          newData.slots 0 budget v.size with
      | Except.error _ => (v, some ())
      | Except.ok p => (⟨⟨newData.id, p.1⟩, v.size⟩, none)

/-- Model of `ReallocationEmplace` with failure injection, mirroring
`Vector.ReallocationEmplace` step by step: the allocation of `growthCapacity
size_` slots may fail, the new element is constructed at slot `k` of the new
buffer, and the two relocations draw down `budget` when the policy copies.
The member fields are written only after both relocations succeed. -/
def Vector.ReallocationEmplaceRun (v : Vector α) (k : Nat) (arg : Arg α)
    (allocOk nothrowMove copyConstructible : Bool) (budget : Option Nat)
    (fresh : Nat) : Vector α × Option Unit :=
  match allocRaw α (growthCapacity v.size) allocOk fresh with
  | Except.error _ => (v, some ())
  | Except.ok newData =>
    match UninitializedE nothrowMove copyConstructible v.data.slots 0
        (newData.slots.set k (evalArg v.data.slots arg)) 0 budget k with
    | Except.error _ => (v, some ())
    | Except.ok p =>
      match UninitializedE nothrowMove copyConstructible v.data.slots k
          p.1 (k + 1) p.2 (v.size - k) with
      | Except.error _ => (v, some ())
      | Except.ok q => (⟨⟨newData.id, q.1⟩, v.size + 1⟩, none)

end AdvVector

namespace AdvVector

theorem slotAt_set_self {l : List (Option α)} {i : Nat} {x : Option α}
    (h : i < l.length) : slotAt (l.set i x) i = x := by
  simp [slotAt, List.getElem?_set_self h]

theorem slotAt_set_ne {l : List (Option α)} {i j : Nat} {x : Option α}
    (h : i ≠ j) : slotAt (l.set i x) j = slotAt l j := by
  simp [slotAt, List.getElem?_set_ne h]

theorem slotAt_replicate (n j : Nat) :
    slotAt (List.replicate n (none : Option α)) j = none := by
  simp only [slotAt, List.getElem?_replicate]
  split <;> rfl

theorem length_copySlots (src : List (Option α)) (srcOff dstOff : Nat)
    (n : Nat) : ∀ (d : List (Option α)),
    (copySlots src srcOff d dstOff n).length = d.length := by
  induction n generalizing srcOff dstOff with
  | zero => intro d; rfl
  | succ m ih =>
    intro d
    simpa [copySlots] using ih (srcOff + 1) (dstOff + 1) (d.set dstOff (slotAt src srcOff))

theorem slotAt_copySlots (src : List (Option α)) :
    ∀ (n srcOff dstOff : Nat) (dst : List (Option α)),
    dstOff + n ≤ dst.length → ∀ j,
    slotAt (copySlots src srcOff dst dstOff n) j
      = if dstOff ≤ j ∧ j < dstOff + n then slotAt src (srcOff + (j - dstOff))
        else slotAt dst j := by
  intro n
  induction n with
  | zero =>
    intro srcOff dstOff dst _ j
    show slotAt dst j = _
    rw [if_neg (by omega)]
  | succ m ih =>
    intro srcOff dstOff dst hlen j
    have hlen2 : (dstOff + 1) + m ≤ (dst.set dstOff (slotAt src srcOff)).length := by
      simp only [List.length_set]; omega
    have step := ih (srcOff + 1) (dstOff + 1) (dst.set dstOff (slotAt src srcOff)) hlen2 j
    show slotAt (copySlots src (srcOff + 1) (dst.set dstOff (slotAt src srcOff)) (dstOff + 1) m) j = _
    rw [step]
    by_cases hmid : dstOff + 1 ≤ j ∧ j < dstOff + 1 + m
    · have houter : dstOff ≤ j ∧ j < dstOff + (m + 1) := by omega
      simp only [if_pos hmid, if_pos houter]
      congr 1
      omega
    · rw [if_neg hmid]
      by_cases hj : j = dstOff
      · rw [hj]
        have houter : dstOff ≤ dstOff ∧ dstOff < dstOff + (m + 1) := by omega
        rw [if_pos houter, slotAt_set_self (by omega)]
        congr 1
        omega
      · have houter : ¬ (dstOff ≤ j ∧ j < dstOff + (m + 1)) := by omega
        rw [if_neg houter, slotAt_set_ne (fun h => hj h.symm)]

theorem length_moveSlot (l : List (Option α)) (s d : Nat) :
    (moveSlot l s d).length = l.length := by
  simp [moveSlot]

theorem slotAt_moveSlot_dst {l : List (Option α)} {s d : Nat} (hne : s ≠ d)
    (hd : d < l.length) : slotAt (moveSlot l s d) d = slotAt l s := by
  rw [moveSlot, slotAt_set_ne hne, slotAt_set_self hd]

theorem slotAt_moveSlot_other {l : List (Option α)} {s d j : Nat}
    (hs : j ≠ s) (hd : j ≠ d) : slotAt (moveSlot l s d) j = slotAt l j := by
  rw [moveSlot, slotAt_set_ne (fun h => hs h.symm), slotAt_set_ne (fun h => hd h.symm)]

theorem length_moveBackwardN (first : Nat) :
    ∀ (n : Nat) (l : List (Option α)),
    (moveBackwardN l first n).length = l.length := by
  intro n
  induction n with
  | zero => intro l; rfl
  | succ m ih =>
    intro l
    show (moveBackwardN (moveSlot l (first + m) (first + m + 1)) first m).length = _
    rw [ih, length_moveSlot]

theorem slotAt_moveBackwardN_outside (first : Nat) :
    ∀ (n : Nat) (l : List (Option α)) (j : Nat),
    (j < first ∨ first + n < j) →
    slotAt (moveBackwardN l first n) j = slotAt l j := by
  intro n
  induction n with
  | zero => intro l j _; rfl
  | succ m ih =>
    intro l j hj
    show slotAt (moveBackwardN (moveSlot l (first + m) (first + m + 1)) first m) j = _
    rw [ih _ j (by omega), slotAt_moveSlot_other (by omega) (by omega)]

theorem slotAt_moveBackwardN_mid (first : Nat) :
    ∀ (n : Nat) (l : List (Option α)) (j : Nat),
    first + n < l.length → first < j → j ≤ first + n →
    slotAt (moveBackwardN l first n) j = slotAt l (j - 1) := by
  intro n
  induction n with
  | zero => intro l j _ h1 h2; omega
  | succ m ih =>
    intro l j hlen h1 h2
    show slotAt (moveBackwardN (moveSlot l (first + m) (first + m + 1)) first m) j = _
    by_cases hj : j ≤ first + m
    · rw [ih _ j (by rw [length_moveSlot]; omega) h1 hj]
      rw [slotAt_moveSlot_other (by omega) (by omega)]
    · have hje : j = first + m + 1 := by omega
      rw [slotAt_moveBackwardN_outside first m _ j (by omega), hje,
        slotAt_moveSlot_dst (by omega) (by omega)]
      congr 1

theorem lt_growthCapacity (n : Nat) : n < growthCapacity n := by
  unfold growthCapacity
  split <;> omega

theorem copySlotsE_budget_none (src : List (Option α)) :
    ∀ (n srcOff dstOff : Nat) (dst : List (Option α)),
    copySlotsE src srcOff dst dstOff none n
      = Except.ok (copySlots src srcOff dst dstOff n, none) := by
  intro n
  induction n with
  | zero => intro srcOff dstOff dst; rfl
  | succ m ih =>
    intro srcOff dstOff dst
    exact ih (srcOff + 1) (dstOff + 1) (dst.set dstOff (slotAt src srcOff))

theorem copySlotsE_err (src : List (Option α)) :
    ∀ (n j srcOff dstOff : Nat) (dst : List (Option α)), j < n →
    copySlotsE src srcOff dst dstOff (some j) n = Except.error () := by
  intro n
  induction n with
  | zero => intro j srcOff dstOff dst h; omega
  | succ m ih =>
    intro j srcOff dstOff dst h
    match j with
    | 0 => rfl
    | jj + 1 =>
      exact ih jj (srcOff + 1) (dstOff + 1) (dst.set dstOff (slotAt src srcOff)) (by omega)

theorem copySlotsE_ok (src : List (Option α)) :
    ∀ (n j srcOff dstOff : Nat) (dst : List (Option α)), n ≤ j →
    copySlotsE src srcOff dst dstOff (some j) n
      = Except.ok (copySlots src srcOff dst dstOff n, some (j - n)) := by
  intro n
  induction n with
  | zero => intro j srcOff dstOff dst _; rfl
  | succ m ih =>
    intro j srcOff dstOff dst h
    match j with
    | 0 => omega
    | jj + 1 =>
      have step := ih jj (srcOff + 1) (dstOff + 1)
        (dst.set dstOff (slotAt src srcOff)) (by omega)
      have harith : jj + 1 - (m + 1) = jj - m := by omega
      rw [show copySlotsE src srcOff dst dstOff (some (jj + 1)) (m + 1)
          = copySlotsE src (srcOff + 1) (dst.set dstOff (slotAt src srcOff))
              (dstOff + 1) (some jj) m from rfl, step, harith]
      rfl

theorem UninitializedE_budget_none (nm cc : Bool) (src : List (Option α))
    (srcOff : Nat) (dst : List (Option α)) (dstOff n : Nat) :
    UninitializedE nm cc src srcOff dst dstOff none n
      = Except.ok (copySlots src srcOff dst dstOff n, none) := by
  unfold UninitializedE
  split
  · rfl
  · exact copySlotsE_budget_none src n srcOff dstOff dst

theorem UninitializedE_copy_err (src : List (Option α)) (srcOff : Nat)
    (dst : List (Option α)) (dstOff j n : Nat) (h : j < n) :
    UninitializedE false true src srcOff dst dstOff (some j) n
      = Except.error () :=
  copySlotsE_err src n j srcOff dstOff dst h

theorem UninitializedE_copy_ok (src : List (Option α)) (srcOff : Nat)
    (dst : List (Option α)) (dstOff j n : Nat) (h : n ≤ j) :
    UninitializedE false true src srcOff dst dstOff (some j) n
      = Except.ok (copySlots src srcOff dst dstOff n, some (j - n)) :=
  copySlotsE_ok src n j srcOff dstOff dst h

theorem reallocationEmplace_slots (α : Type) (v : Vector α) (k : Nat)
    (arg : Arg α) (fresh : Nat) (hk : k ≤ v.size) :
    (∀ i, i < k → slotAt (v.ReallocationEmplace k arg fresh).1.data.slots i
        = slotAt v.data.slots i)
    ∧ slotAt (v.ReallocationEmplace k arg fresh).1.data.slots k
        = evalArg v.data.slots arg
    ∧ (∀ i, k ≤ i → i < v.size →
        slotAt (v.ReallocationEmplace k arg fresh).1.data.slots (i + 1)
          = slotAt v.data.slots i) := by
  have hg := lt_growthCapacity v.size
  have hre : (v.ReallocationEmplace k arg fresh).1.data.slots
      = copySlots v.data.slots k
          (copySlots v.data.slots 0
            ((List.replicate (growthCapacity v.size) (none : Option α)).set k
              (evalArg v.data.slots arg)) 0 k)
          (k + 1) (v.size - k) := rfl
  have hlen1 : ((List.replicate (growthCapacity v.size) (none : Option α)).set k
      (evalArg v.data.slots arg)).length = growthCapacity v.size := by
    simp
  have hlen2 : (copySlots v.data.slots 0
      ((List.replicate (growthCapacity v.size) (none : Option α)).set k
        (evalArg v.data.slots arg)) 0 k).length = growthCapacity v.size := by
    rw [length_copySlots]
    exact hlen1
  have hb2 : 0 + k ≤ ((List.replicate (growthCapacity v.size) (none : Option α)).set k
      (evalArg v.data.slots arg)).length := by
    rw [hlen1]; omega
  have hb3 : (k + 1) + (v.size - k) ≤ (copySlots v.data.slots 0
      ((List.replicate (growthCapacity v.size) (none : Option α)).set k
        (evalArg v.data.slots arg)) 0 k).length := by
    rw [hlen2]; omega
  refine ⟨?_, ?_, ?_⟩
  · intro i hi
    rw [hre, slotAt_copySlots _ _ _ _ _ hb3 i, if_neg (by omega),
      slotAt_copySlots _ _ _ _ _ hb2 i, if_pos (by omega)]
    congr 1
    omega
  · rw [hre, slotAt_copySlots _ _ _ _ _ hb3 k, if_neg (by omega),
      slotAt_copySlots _ _ _ _ _ hb2 k, if_neg (by omega),
      slotAt_set_self (by rw [List.length_replicate]; omega)]
  · intro i hki hi
    rw [hre, slotAt_copySlots _ _ _ _ _ hb3 (i + 1), if_pos (by omega)]
    congr 1
    omega

theorem noReallocationEmplace_slots (α : Type) (v : Vector α) (k : Nat)
    (arg : Arg α) (hk : k ≤ v.size) (hsz : v.size < v.data.capacity) :
    (∀ i, i < k → slotAt (v.NoReallocationEmplace k arg).1.data.slots i
        = slotAt v.data.slots i)
    ∧ slotAt (v.NoReallocationEmplace k arg).1.data.slots k
        = evalArg v.data.slots arg
    ∧ (∀ i, k ≤ i → i < v.size →
        slotAt (v.NoReallocationEmplace k arg).1.data.slots (i + 1)
          = slotAt v.data.slots i) := by
  have hlen : v.data.slots.length = v.data.capacity := rfl
  by_cases hke : k = v.size
  · have hre : (v.NoReallocationEmplace k arg).1.data.slots
        = v.data.slots.set v.size (evalArg v.data.slots arg) := by
      unfold Vector.NoReallocationEmplace
      rw [if_pos hke]
    refine ⟨?_, ?_, ?_⟩
    · intro i hi
      rw [hre, slotAt_set_ne (by omega)]
    · rw [hre, hke, slotAt_set_self (by omega)]
    · intro i h1 h2
      omega
  · have hks : k < v.size := by omega
    have hre : (v.NoReallocationEmplace k arg).1.data.slots
        = (moveBackwardN (moveSlot v.data.slots (v.size - 1) v.size) k
            (v.size - 1 - k)).set k (evalArg v.data.slots arg) := by
      unfold Vector.NoReallocationEmplace
      rw [if_neg hke]
    have hlen1 : (moveSlot v.data.slots (v.size - 1) v.size).length
        = v.data.capacity := by
      rw [length_moveSlot, hlen]
    have hlen2 : (moveBackwardN (moveSlot v.data.slots (v.size - 1) v.size) k
        (v.size - 1 - k)).length = v.data.capacity := by
      rw [length_moveBackwardN, hlen1]
    refine ⟨?_, ?_, ?_⟩
    · intro i hi
      rw [hre, slotAt_set_ne (by omega),
        slotAt_moveBackwardN_outside k (v.size - 1 - k) _ i (by omega),
        slotAt_moveSlot_other (by omega) (by omega)]
    · rw [hre, slotAt_set_self (by rw [hlen2]; omega)]
    · intro i h1 h2
      rw [hre, slotAt_set_ne (by omega)]
      by_cases hi : i + 1 ≤ v.size - 1
      · rw [slotAt_moveBackwardN_mid k (v.size - 1 - k) _ (i + 1)
          (by rw [hlen1]; omega) (by omega) (by omega)]
        rw [show i + 1 - 1 = i from rfl,
          slotAt_moveSlot_other (by omega) (by omega)]
      · have hieq : i = v.size - 1 := by omega
        rw [slotAt_moveBackwardN_outside k (v.size - 1 - k) _ (i + 1) (by omega),
          show i + 1 = v.size by omega,
          slotAt_moveSlot_dst (by omega) (by rw [hlen]; omega), hieq]

/-- Claim C1: destruction of a vector of size `n` should destroy exactly the
`n` live elements in slots `[0, n)` in order, each destructor running once,
before the storage is released. The code is wrong: `DestroyN` never advances
the pointer, so on a vector of size 2 the destructor destroys slot 0 twice
and slot 1 never. -/
theorem c1_destructor_repeats_slot_zero :
    Vector.destructor (α := Nat) ⟨⟨1, [some 3, some 4]⟩, 2⟩
      = [Event.destroyAt 1 0, Event.destroyAt 1 0, Event.dealloc 1]
    ∧ Vector.destructor (α := Nat) ⟨⟨1, [some 3, some 4]⟩, 2⟩
      ≠ [Event.destroyAt 1 0, Event.destroyAt 1 1, Event.dealloc 1] := by
  exact ⟨rfl, by decide⟩

/-- Claim C4, counterexample: move-assigning `RawMemory` (target buffer 1 of
capacity 1, source buffer 2 of capacity 2) leaves the source holding the
previous buffer of the target — not in the default (null, 0) state — and
releases nothing during the assignment. -/
theorem c4_move_assign_counterexample :
    (RawMemory.moveAssign (α := Nat) ⟨1, [none]⟩ ⟨2, [none, none]⟩).2.1 = ⟨1, [none]⟩
    ∧ (RawMemory.moveAssign (α := Nat) ⟨1, [none]⟩ ⟨2, [none, none]⟩).2.1 ≠ RawMemory.null Nat
    ∧ (RawMemory.moveAssign (α := Nat) ⟨1, [none]⟩ ⟨2, [none, none]⟩).2.2 = [] := by
  exact ⟨rfl, by decide, rfl⟩

/-- Claim C4, amended: `RawMemory` move-assignment swaps buffer and capacity
between target and source; the target receives the buffer and capacity of the
source, the previous buffer of the target is transferred to the source
(released only later, when the source is destroyed — no release event occurs
at the overwrite), and only move-construction leaves its source in the
default (null, 0) state. -/
theorem c4_move_assign_swaps (α : Type) (a rhs : RawMemory α) :
    RawMemory.moveAssign a rhs = (rhs, a, [])
    ∧ RawMemory.moveCtor rhs = (rhs, RawMemory.null α) := ⟨rfl, rfl⟩

/-- Claim C10: after move-constructing vector `b` from vector `a`, `b` holds
exactly the pre-move storage and size of `a`, and the moved-from `a` is in
the default-constructed state: size 0, capacity 0, null buffer. -/
theorem c10_move_ctor_source_default (α : Type) (a : Vector α) :
    (Vector.moveCtor a).1 = a
    ∧ (Vector.moveCtor a).2.size = 0
    ∧ (Vector.moveCtor a).2.capacity = 0
    ∧ (Vector.moveCtor a).2.data.id = 0 := by
  refine ⟨rfl, rfl, rfl, rfl⟩

/-- Claim C7: relocation into a new buffer (`Vector<T>::Uninitialized`)
move-constructs every element when `T` is nothrow-move-constructible or not
copy-constructible, and copy-constructs every element otherwise; in
particular, for nothrow-move-constructible `T` the relocation trace contains
zero copy constructions. -/
theorem c7_relocation_policy (n : Nat) (nothrowMove copyConstructible : Bool)
    (h : nothrowMove = true ∨ copyConstructible = false) :
    Uninitialized_ops nothrowMove copyConstructible n
      = (List.range n).map RelocOp.moveConstruct
    ∧ Uninitialized_ops false true n = (List.range n).map RelocOp.copyConstruct
    ∧ countCopies (Uninitialized_ops true copyConstructible n) = 0 := by
  have hby : relocByMove nothrowMove copyConstructible = true := by
    rcases h with h | h <;> simp [relocByMove, h]
  refine ⟨?_, rfl, ?_⟩
  · unfold Uninitialized_ops
    rw [hby, if_pos rfl]
  · simp [countCopies, Uninitialized_ops, relocByMove, List.countP_map, Function.comp]

/-- Witness for C7 at concrete inputs: two elements, a nothrow-movable and
copy-constructible element type. -/
theorem c7_relocation_policy_witness :
    Uninitialized_ops true true 2 = (List.range 2).map RelocOp.moveConstruct
    ∧ Uninitialized_ops false true 2 = (List.range 2).map RelocOp.copyConstruct
    ∧ countCopies (Uninitialized_ops true true 2) = 0 :=
  c7_relocation_policy 2 true true (Or.inl rfl)

/-- Claim C2: copy-assignment with `rhs.size ≤ a.capacity` and
`rhs.size ≥ a.size` should end with `a.size == rhs.size` and `a[i] == rhs[i]`
for every `i < rhs.size`. The code is wrong: the tail `rhs[a.size, rhs.size)`
is copy-constructed at destination `data_.GetAddress()` (offset 0) instead of
`data_ + a.size`; for `a = [10]` with capacity 2 and `rhs = [20, 30]` the
result is `[30, raw]` with size 2 rather than `[20, 30]`. -/
theorem c2_copy_assign_tail_lands_at_offset_zero :
    Vector.copyAssign (α := Nat) ⟨⟨1, [some 10, none]⟩, 1⟩
        ⟨⟨2, [some 20, some 30]⟩, 2⟩ 9
      = ⟨⟨1, [some 30, none]⟩, 2⟩
    ∧ slotAt (Vector.copyAssign (α := Nat) ⟨⟨1, [some 10, none]⟩, 1⟩
        ⟨⟨2, [some 20, some 30]⟩, 2⟩ 9).data.slots 1 ≠ some 30 := by
  refine ⟨by decide, by decide⟩

/-- Claim C3, counterexample: move-assignment with `rhs.size ≤ a.capacity`
does not release the previous storage of `a` during the operation — for `a`
owning buffer 1 with elements `[5, 6]` and `rhs` owning buffer 2 with `[7]`,
the operation emits no destructor call and no deallocation, and leaves `rhs`
owning buffer 1 with the two old elements of `a` still inside. -/
theorem c3_move_assign_counterexample :
    (Vector.moveAssignOp (α := Nat) ⟨⟨1, [some 5, some 6]⟩, 2⟩
        ⟨⟨2, [some 7, none]⟩, 1⟩).2.2 = []
    ∧ (Vector.moveAssignOp (α := Nat) ⟨⟨1, [some 5, some 6]⟩, 2⟩
        ⟨⟨2, [some 7, none]⟩, 1⟩).2.1.data = ⟨1, [some 5, some 6]⟩ := by
  refine ⟨by decide, by decide⟩

/-- Claim C3, amended: for distinct vectors with `rhs.size ≤ a.capacity`,
move-assignment swaps the storages: `a` takes the storage of `rhs` and sets
`size_ = rhs.size`, so it holds the pre-move contents of `rhs`; the previous
storage of `a` is not released during the operation but transferred into
`rhs` (whose `size_` becomes `rhs.size` as well), and the operation cannot
fail — it emits no event. -/
theorem c3_move_assign_swaps_storages (α : Type) (a rhs : Vector α)
    (h : rhs.size ≤ a.data.capacity) :
    Vector.moveAssignOp a rhs = (⟨rhs.data, rhs.size⟩, ⟨a.data, rhs.size⟩, []) := by
  unfold Vector.moveAssignOp
  rw [if_neg (by omega)]
  rfl

/-- Witness for C3 at a concrete input. -/
theorem c3_move_assign_swaps_storages_witness :
    Vector.moveAssignOp (α := Nat) ⟨⟨1, [some 5]⟩, 1⟩ ⟨⟨2, [some 7]⟩, 1⟩
      = (⟨⟨2, [some 7]⟩, 1⟩, ⟨⟨1, [some 5]⟩, 1⟩, []) :=
  c3_move_assign_swaps_storages Nat ⟨⟨1, [some 5]⟩, 1⟩ ⟨⟨2, [some 7]⟩, 1⟩ (by decide)

/-- Claim C5: for a position `k = pos - begin()` with `k ≤ size ≤ capacity`,
`Emplace(pos, args...)` inserts one element at index `k` constructed from
the arguments as evaluated against the pre-call buffer — so arguments
aliasing elements of the vector itself, as in `v.EmplaceBack(v[0])`, are
well-defined in both the growth and the no-growth branch — leaves the first
`k` slots unchanged, shifts the former slots `[k, size)` to
`[k + 1, size + 1)`, increments the size by one, and returns the offset `k`
of the inserted element. -/
theorem c5_emplace_inserts_at_k (α : Type) (v : Vector α) (k : Nat)
    (arg : Arg α) (fresh : Nat) (hk : k ≤ v.size)
    (hsz : v.size ≤ v.data.capacity) :
    (v.Emplace k arg fresh).1.size = v.size + 1
    ∧ (v.Emplace k arg fresh).2 = k
    ∧ (∀ i, i < k →
        slotAt (v.Emplace k arg fresh).1.data.slots i = slotAt v.data.slots i)
    ∧ slotAt (v.Emplace k arg fresh).1.data.slots k = evalArg v.data.slots arg
    ∧ (∀ i, k ≤ i → i < v.size →
        slotAt (v.Emplace k arg fresh).1.data.slots (i + 1)
          = slotAt v.data.slots i) := by
  by_cases hgrow : v.size = v.data.capacity
  · have he : v.Emplace k arg fresh = v.ReallocationEmplace k arg fresh := by
      unfold Vector.Emplace
      rw [if_pos hgrow]
    obtain ⟨g3, g4, g5⟩ := reallocationEmplace_slots α v k arg fresh hk
    rw [he]
    exact ⟨rfl, rfl, g3, g4, g5⟩
  · have he : v.Emplace k arg fresh = v.NoReallocationEmplace k arg := by
      unfold Vector.Emplace
      rw [if_neg hgrow]
    obtain ⟨g3, g4, g5⟩ := noReallocationEmplace_slots α v k arg hk (by omega)
    rw [he]
    refine ⟨?_, ?_, g3, g4, g5⟩
    · unfold Vector.NoReallocationEmplace
      by_cases hke : k = v.size
      · rw [if_pos hke]
      · rw [if_neg hke]
    · unfold Vector.NoReallocationEmplace
      by_cases hke : k = v.size
      · rw [if_pos hke]
      · rw [if_neg hke]

/-- Witness for C5 at a concrete input: `[10, 20]` at full capacity,
emplacing the self-referencing argument `v[0]` at position 1 (the growth
branch with aliasing). -/
theorem c5_emplace_inserts_at_k_witness :
    (Vector.Emplace (α := Nat) ⟨⟨1, [some 10, some 20]⟩, 2⟩ 1 (Arg.ref 0) 5).1.size = 2 + 1
    ∧ (Vector.Emplace (α := Nat) ⟨⟨1, [some 10, some 20]⟩, 2⟩ 1 (Arg.ref 0) 5).2 = 1
    ∧ (∀ i, i < 1 →
        slotAt (Vector.Emplace (α := Nat) ⟨⟨1, [some 10, some 20]⟩, 2⟩ 1
          (Arg.ref 0) 5).1.data.slots i = slotAt [some 10, some 20] i)
    ∧ slotAt (Vector.Emplace (α := Nat) ⟨⟨1, [some 10, some 20]⟩, 2⟩ 1
        (Arg.ref 0) 5).1.data.slots 1 = evalArg [some 10, some 20] (Arg.ref 0)
    ∧ (∀ i, 1 ≤ i → i < 2 →
        slotAt (Vector.Emplace (α := Nat) ⟨⟨1, [some 10, some 20]⟩, 2⟩ 1
          (Arg.ref 0) 5).1.data.slots (i + 1) = slotAt [some 10, some 20] i) :=
  c5_emplace_inserts_at_k Nat ⟨⟨1, [some 10, some 20]⟩, 2⟩ 1 (Arg.ref 0) 5
    (by decide) (by decide)

/-- Claim C9: when an append or positional insert grows (`size_ ==
capacity`), the new capacity is `growthCapacity size_`: exactly 1 when the
previous size was 0 and exactly twice the previous size — equal to twice the
previous capacity — otherwise, in both `ReallocationEmplace` and the growth
branch of `PushBack(T&&)`; hence after a single growth event the capacity is
in the set with elements 1 and twice the previous capacity. -/
theorem c9_growth_policy (α : Type) (v : Vector α) (k fresh : Nat)
    (arg : Arg α) (x : α) (h : v.size = v.data.capacity) :
    (v.ReallocationEmplace k arg fresh).1.capacity = growthCapacity v.size
    ∧ (v.PushBackMove x fresh).capacity = growthCapacity v.size
    ∧ (v.size = 0 → growthCapacity v.size = 1)
    ∧ (v.size ≠ 0 → growthCapacity v.size = 2 * v.data.capacity)
    ∧ (growthCapacity v.size = 1 ∨ growthCapacity v.size = 2 * v.data.capacity) := by
  have h1 : (v.ReallocationEmplace k arg fresh).1.capacity = growthCapacity v.size := by
    show (copySlots v.data.slots k
        (copySlots v.data.slots 0
          ((List.replicate (growthCapacity v.size) (none : Option α)).set k
            (evalArg v.data.slots arg)) 0 k)
        (k + 1) (v.size - k)).length = growthCapacity v.size
    rw [length_copySlots, length_copySlots]
    simp
  have h2 : (v.PushBackMove x fresh).capacity = growthCapacity v.size := by
    have hp : v.PushBackMove x fresh
        = ⟨⟨fresh, copySlots v.data.slots 0
            ((List.replicate (growthCapacity v.size) (none : Option α)).set v.size
              (some x)) 0 v.size⟩, v.size + 1⟩ := by
      unfold Vector.PushBackMove
      rw [if_pos h]
    rw [hp]
    show (copySlots v.data.slots 0
        ((List.replicate (growthCapacity v.size) (none : Option α)).set v.size
          (some x)) 0 v.size).length = growthCapacity v.size
    rw [length_copySlots]
    simp
  refine ⟨h1, h2, ?_, ?_, ?_⟩
  · intro h0
    unfold growthCapacity
    rw [if_pos h0]
  · intro h0
    unfold growthCapacity
    rw [if_neg h0]
    omega
  · by_cases h0 : v.size = 0
    · left
      unfold growthCapacity
      rw [if_pos h0]
    · right
      unfold growthCapacity
      rw [if_neg h0]
      omega

/-- Witness for C9 at a concrete input: a full vector of size 1. -/
theorem c9_growth_policy_witness :
    (Vector.ReallocationEmplace (α := Nat) ⟨⟨1, [some 4]⟩, 1⟩ 0 (Arg.lit 7) 3).1.capacity
      = growthCapacity 1
    ∧ (Vector.PushBackMove (α := Nat) ⟨⟨1, [some 4]⟩, 1⟩ 8 3).capacity = growthCapacity 1
    ∧ ((1 : Nat) = 0 → growthCapacity 1 = 1)
    ∧ ((1 : Nat) ≠ 0 → growthCapacity 1 = 2 * 1)
    ∧ (growthCapacity 1 = 1 ∨ growthCapacity 1 = 2 * 1) :=
  c9_growth_policy Nat ⟨⟨1, [some 4]⟩, 1⟩ 0 3 (Arg.lit 7) 8 (by decide)

/-- Claim C8, counterexample: `Reserve(k)` with `k` equal to the current
capacity is not a no-op — the predicate in the source is strict less-than,
so on a vector of capacity 2 owning buffer 1, `Reserve(2)` relocates into a
fresh buffer (identity 7 here): the object observably changes. -/
theorem c8_reserve_counterexample :
    (Vector.ReserveRun (α := Nat) ⟨⟨1, [some 5, some 6]⟩, 2⟩ 2 true false true none 7).1
      = ⟨⟨7, [some 5, some 6]⟩, 2⟩
    ∧ (Vector.ReserveRun (α := Nat) ⟨⟨1, [some 5, some 6]⟩, 2⟩ 2 true false true none 7).1
      ≠ ⟨⟨1, [some 5, some 6]⟩, 2⟩ := by
  refine ⟨by decide, by decide⟩

/-- Claim C8, amended: `Reserve(k)` with `k` strictly below the capacity is
a no-op, while `Reserve(capacity)` reallocates: it cannot fail here, size,
capacity and element values are unchanged, but for nonzero capacity the
elements end up in a fresh buffer, so the storage is replaced rather than
kept. -/
theorem c8_reserve_strict_predicate (α : Type) (v : Vector α) (kk fresh : Nat)
    (nm cc : Bool) (hsz : v.size ≤ v.data.capacity) :
    (kk < v.data.capacity → Vector.ReserveRun v kk true nm cc none fresh = (v, none))
    ∧ (Vector.ReserveRun v v.data.capacity true nm cc none fresh).2 = none
    ∧ (Vector.ReserveRun v v.data.capacity true nm cc none fresh).1.size = v.size
    ∧ (Vector.ReserveRun v v.data.capacity true nm cc none fresh).1.capacity = v.capacity
    ∧ (∀ i, i < v.size →
        slotAt (Vector.ReserveRun v v.data.capacity true nm cc none fresh).1.data.slots i
          = slotAt v.data.slots i)
    ∧ (v.data.capacity ≠ 0 →
        (Vector.ReserveRun v v.data.capacity true nm cc none fresh).1.data.id = fresh) := by
  have hsucc : ∀ (newCap : Nat), ¬ newCap < v.data.capacity →
      Vector.ReserveRun v newCap true nm cc none fresh
        = (⟨⟨if newCap = 0 then 0 else fresh,
            copySlots v.data.slots 0 (List.replicate newCap none) 0 v.size⟩,
            v.size⟩, none) := by
    intro newCap hnc
    unfold Vector.ReserveRun
    rw [if_neg hnc]
    by_cases h0 : newCap = 0
    · subst h0
      rw [show allocRaw α 0 true fresh = Except.ok (RawMemory.null α) from rfl]
      simp only [UninitializedE_budget_none]
      rfl
    · rw [show allocRaw α newCap true fresh
          = Except.ok (⟨fresh, List.replicate newCap none⟩ : RawMemory α) from by
            unfold allocRaw
            rw [if_neg h0]
            rfl]
      simp only [UninitializedE_budget_none]
      rw [if_neg h0]
  have hcap := hsucc v.data.capacity (by omega)
  refine ⟨?_, ?_, ?_, ?_, ?_, ?_⟩
  · intro hlt
    unfold Vector.ReserveRun
    rw [if_pos hlt]
  · rw [hcap]
  · rw [hcap]
  · rw [hcap]
    show (copySlots v.data.slots 0 (List.replicate v.data.capacity none) 0 v.size).length
      = v.capacity
    rw [length_copySlots, List.length_replicate]
    rfl
  · intro i hi
    rw [hcap]
    show slotAt (copySlots v.data.slots 0 (List.replicate v.data.capacity none) 0 v.size) i
      = slotAt v.data.slots i
    rw [slotAt_copySlots _ _ _ _ _ (by rw [List.length_replicate]; omega) i,
      if_pos (by omega)]
    congr 1
    omega
  · intro hc0
    rw [hcap]
    show (if v.data.capacity = 0 then 0 else fresh) = fresh
    rw [if_neg hc0]

/-- Witness for C8 at a concrete input: capacity 2, `Reserve(1)` is a no-op
and `Reserve(2)` preserves size, capacity and values while moving the
elements into fresh buffer 7. -/
theorem c8_reserve_strict_predicate_witness :
    ((1 : Nat) < 2 → Vector.ReserveRun (α := Nat) ⟨⟨1, [some 5, some 6]⟩, 2⟩ 1
        true false true none 7 = (⟨⟨1, [some 5, some 6]⟩, 2⟩, none))
    ∧ (Vector.ReserveRun (α := Nat) ⟨⟨1, [some 5, some 6]⟩, 2⟩ 2 true false true none 7).2 = none
    ∧ (Vector.ReserveRun (α := Nat) ⟨⟨1, [some 5, some 6]⟩, 2⟩ 2 true false true none 7).1.size = 2
    ∧ (Vector.ReserveRun (α := Nat) ⟨⟨1, [some 5, some 6]⟩, 2⟩ 2 true false true none 7).1.capacity = 2
    ∧ (∀ i, i < 2 →
        slotAt (Vector.ReserveRun (α := Nat) ⟨⟨1, [some 5, some 6]⟩, 2⟩ 2
          true false true none 7).1.data.slots i = slotAt [some 5, some 6] i)
    ∧ ((2 : Nat) ≠ 0 →
        (Vector.ReserveRun (α := Nat) ⟨⟨1, [some 5, some 6]⟩, 2⟩ 2
          true false true none 7).1.data.id = 7) :=
  c8_reserve_strict_predicate Nat ⟨⟨1, [some 5, some 6]⟩, 2⟩ 1 7 false true (by decide)

/-- Claim C6: on a growth operation, if the allocation of the new storage
fails, or relocation is done by copies (`relocByMove false true = false`)
and the j-th copy fails, then the observable state of the sequence — size,
capacity and element values — is exactly as before: the failing `Reserve`
and `ReallocationEmplace` return the original vector with the escaped
exception. -/
theorem c6_growth_strong_guarantee (α : Type) (v : Vector α)
    (newCap k j fresh : Nat) (arg : Arg α) (nm cc : Bool)
    (hgrow : v.data.capacity < newCap) (hj : j < v.size) (hk : k ≤ v.size) :
    Vector.ReserveRun v newCap false nm cc none fresh = (v, some ())
    ∧ Vector.ReserveRun v newCap true false true (some j) fresh = (v, some ())
    ∧ Vector.ReallocationEmplaceRun v k arg false nm cc none fresh = (v, some ())
    ∧ Vector.ReallocationEmplaceRun v k arg true false true (some j) fresh
      = (v, some ()) := by
  have hg := lt_growthCapacity v.size
  have haf : allocRaw α newCap false fresh
      = (Except.error () : Except Unit (RawMemory α)) := by
    unfold allocRaw
    rw [if_neg (by omega)]
    rfl
  have hat : allocRaw α newCap true fresh
      = Except.ok (⟨fresh, List.replicate newCap none⟩ : RawMemory α) := by
    unfold allocRaw
    rw [if_neg (by omega)]
    rfl
  have hgf : allocRaw α (growthCapacity v.size) false fresh
      = (Except.error () : Except Unit (RawMemory α)) := by
    unfold allocRaw
    rw [if_neg (by omega)]
    rfl
  have hgt : allocRaw α (growthCapacity v.size) true fresh
      = Except.ok (⟨fresh, List.replicate (growthCapacity v.size) none⟩ : RawMemory α) := by
    unfold allocRaw
    rw [if_neg (by omega)]
    rfl
  refine ⟨?_, ?_, ?_, ?_⟩
  · unfold Vector.ReserveRun
    rw [if_neg (by omega), haf]
  · unfold Vector.ReserveRun
    rw [if_neg (by omega), hat]
    simp only [UninitializedE_copy_err v.data.slots 0 (List.replicate newCap none) 0
      j v.size hj]
  · unfold Vector.ReallocationEmplaceRun
    rw [hgf]
  · unfold Vector.ReallocationEmplaceRun
    rw [hgt]
    by_cases hjk : j < k
    · simp only [UninitializedE_copy_err v.data.slots 0
        ((List.replicate (growthCapacity v.size) none).set k (evalArg v.data.slots arg))
        0 j k hjk]
    · simp only [UninitializedE_copy_ok v.data.slots 0
        ((List.replicate (growthCapacity v.size) none).set k (evalArg v.data.slots arg))
        0 j k (by omega)]
      simp only [UninitializedE_copy_err v.data.slots k
        (copySlots v.data.slots 0
          ((List.replicate (growthCapacity v.size) none).set k (evalArg v.data.slots arg))
          0 k)
        (k + 1) (j - k) (v.size - k) (by omega)]

/-- Witness for C6 at a concrete input: a full vector `[10]`, growing to
capacity 2, with the allocation failing respectively the first copy
throwing. -/
theorem c6_growth_strong_guarantee_witness :
    Vector.ReserveRun (α := Nat) ⟨⟨1, [some 10]⟩, 1⟩ 2 false true true none 9
      = (⟨⟨1, [some 10]⟩, 1⟩, some ())
    ∧ Vector.ReserveRun (α := Nat) ⟨⟨1, [some 10]⟩, 1⟩ 2 true false true (some 0) 9
      = (⟨⟨1, [some 10]⟩, 1⟩, some ())
    ∧ Vector.ReallocationEmplaceRun (α := Nat) ⟨⟨1, [some 10]⟩, 1⟩ 1 (Arg.lit 99)
        false true true none 9 = (⟨⟨1, [some 10]⟩, 1⟩, some ())
    ∧ Vector.ReallocationEmplaceRun (α := Nat) ⟨⟨1, [some 10]⟩, 1⟩ 1 (Arg.lit 99)
        true false true (some 0) 9 = (⟨⟨1, [some 10]⟩, 1⟩, some ()) :=
  c6_growth_strong_guarantee Nat ⟨⟨1, [some 10]⟩, 1⟩ 2 1 0 9 (Arg.lit 99) true true
    (by decide) (by decide) (by decide)

end AdvVector
